import Mathlib

/-!
Verification development for the pixi lock-file export engine.

The definitions below are a shallow embedding of:
- src/project/manifest/pypi/pypi_requirement_types.rs
  (PyPiPackageName, VersionOrStar, GitRev)
- src/cli/project/export/conda_explicit_spec.rs
  (build_explicit_spec, render_explicit_spec, render_env_platform, execute)

External crates used by that code (uv_normalize / pep508 package-name
normalization, pep440 version specifiers, rattler types and its
topological sort) are modelled where the claims require them; each such
definition says so in its doc comment.
-/

/-! ## Package identity model (pypi_requirement_types.rs) -/

/-- Separator characters folded by PEP 503 name normalization. -/
def isSeparator (c : Char) : Bool := c = '-' || c = '_' || c = '.'

/-- Characters admissible in a PEP 508 package name. -/
def isNameChar (c : Char) : Bool := c.isAlphanum || isSeparator c

/-- Modelled from the external uv_normalize crate (PEP 503): lowercase every
character and collapse each run of the separators `-`, `_`, `.` into a
single `-`. -/
def normalizeChars : List Char → List Char
  | [] => []
  | [c] => if isSeparator c then ['-'] else [c.toLower]
  | c :: d :: rest =>
    if isSeparator c then
      if isSeparator d then normalizeChars (d :: rest)
      else '-' :: normalizeChars (d :: rest)
    else c.toLower :: normalizeChars (d :: rest)

/-- Modelled from the external uv_normalize crate: the PEP 508 validity check
performed by PackageName::from_str (first and last character alphanumeric,
all characters alphanumeric or separators). -/
def validPackageName (s : String) : Bool :=
  (s.data.head?.any Char.isAlphanum) && (s.data.getLast?.any Char.isAlphanum)
    && s.data.all isNameChar

/-- Modelled from the external pep508_rs / uv_normalize crates: a validated
package name stored in normalized form. -/
structure PackageName where
  name : String
deriving DecidableEq, Repr

/-- Modelled from the external uv_normalize crate: PackageName::from_str
validates and normalizes. -/
def PackageName.fromStr (s : String) : Except String PackageName :=
  if validPackageName s then .ok ⟨String.mk (normalizeChars s.data)⟩
  else .error ("Not a valid package or extra name: " ++ s)

/-- PyPiPackageName from pypi_requirement_types.rs: stores both the source
text and the normalized name.  The Rust code derives PartialEq/Eq/Hash, so
equality compares BOTH fields; this is structural equality here. -/
structure PyPiPackageName where
  source : String
  normalized : PackageName
deriving DecidableEq, Repr

/-- PyPiPackageName::from_str: keep the raw text as source, normalize for
the normalized field. -/
def PyPiPackageName.fromStr (name : String) : Except String PyPiPackageName :=
  (PackageName.fromStr name).map (fun n => { source := name, normalized := n })

/-- PyPiPackageName::from_normalized. -/
def PyPiPackageName.fromNormalized (normalized : PackageName) : PyPiPackageName :=
  { source := normalized.name, normalized := normalized }

/-- PyPiPackageName::as_normalized. -/
def PyPiPackageName.asNormalized (p : PyPiPackageName) : PackageName := p.normalized

/-- PyPiPackageName::as_source. -/
def PyPiPackageName.asSource (p : PyPiPackageName) : String := p.source

/-- The stream of field values the derived Hash implementation feeds to the
hasher, in declaration order: first the source text, then the normalized
name.  Two values hash alike exactly when their streams agree. -/
def PyPiPackageName.hashStream (p : PyPiPackageName) : List String :=
  [p.source, p.normalized.name]

/-! ## Version specifiers (pypi_requirement_types.rs) -/

/-- Modelled from the external pep440_rs crate, abstractly: a set of version
range constraints, held as the list of individual specifier strings.  The
claims touch only the wildcard branch, which this crate does not handle. -/
structure VersionSpecifiers where
  specs : List String
deriving DecidableEq, Repr

/-- Modelled from the external pep440_rs crate: the empty specifier set. -/
def VersionSpecifiers.empty : VersionSpecifiers := ⟨[]⟩

/-- Modelled from the external pep440_rs crate, abstractly: parse a
comma-separated specifier list. -/
def VersionSpecifiers.fromStr (s : String) : Except String VersionSpecifiers :=
  .ok ⟨((s.splitOn ",").map String.trim).filter (fun t => !t.isEmpty)⟩

/-- Modelled from the external pep440_rs crate: Display joins the specifiers
with a comma and a space. -/
def VersionSpecifiers.toStr (v : VersionSpecifiers) : String :=
  String.intercalate ", " v.specs

/-- VersionOrStar from pypi_requirement_types.rs: either ordinary version
specifiers or the wildcard sentinel. -/
inductive VersionOrStar where
  | version (v : VersionSpecifiers)
  | star
deriving DecidableEq, Repr

/-- VersionOrStar::from_str: the literal "*" parses to Star, anything else is
delegated to the specifier parser. -/
def VersionOrStar.fromStr (s : String) : Except String VersionOrStar :=
  if s = "*" then .ok .star
  else (VersionSpecifiers.fromStr s).map .version

/-- VersionOrStar::to_string. -/
def VersionOrStar.toStr : VersionOrStar → String
  | .version v => v.toStr
  | .star => "*"

/-- From(VersionOrStar) for VersionSpecifiers: the wildcard becomes the empty
constraint set. -/
def VersionOrStar.toVersionSpecifiers : VersionOrStar → VersionSpecifiers
  | .version v => v
  | .star => VersionSpecifiers.empty

/-! ## Git revisions (pypi_requirement_types.rs) -/

/-- GitRev from pypi_requirement_types.rs. -/
inductive GitRev where
  | short (s : String)
  | full (s : String)
deriving DecidableEq, Repr

/-- Modelled from the external uv_git crate: the reference kinds GitRev
converts into. -/
inductive GitReference where
  | fullCommit (s : String)
  | branchOrTagOrCommit (s : String)
deriving DecidableEq, Repr

/-- From(&str) for GitRev: classify by byte length alone (Rust str::len). -/
def GitRev.fromStr (s : String) : GitRev :=
  if s.utf8ByteSize = 40 then .full s else .short s

/-- GitRev::as_full. -/
def GitRev.asFull : GitRev → Option String
  | .full s => some s
  | .short _ => none

/-- GitRev::to_git_reference. -/
def GitRev.toGitReference : GitRev → GitReference
  | .full rev => .fullCommit rev
  | .short rev => .branchOrTagOrCommit rev

/-- GitRev::to_string. -/
def GitRev.toStr : GitRev → String
  | .short s => s
  | .full s => s

/-- A 40-character string of hexadecimal digits, i.e. a full commit hash as
the spec describes it. -/
def isFullHexHash (s : String) : Bool :=
  s.utf8ByteSize = 40 && s.data.all (fun c => c.isDigit || ('a' ≤ c && c ≤ 'f'))

/-- Decidable equality on Except by structural comparison, so concrete
results of the fallible operations can be settled by decide. -/
def exceptDecEq {ε α : Type} [DecidableEq ε] [DecidableEq α] :
    (a b : Except ε α) → Decidable (a = b)
  | .ok x, .ok y =>
    if h : x = y then .isTrue (by rw [h]) else .isFalse (by simp [h])
  | .ok _, .error _ => .isFalse (by simp)
  | .error _, .ok _ => .isFalse (by simp)
  | .error x, .error y =>
    if h : x = y then .isTrue (by rw [h]) else .isFalse (by simp [h])

instance {ε α : Type} [DecidableEq ε] [DecidableEq α] : DecidableEq (Except ε α) :=
  exceptDecEq

/-! ## Export data model (conda_explicit_spec.rs and the rattler types it uses) -/

/-- Platform tag such as "linux-64". -/
abbrev Platform := String

/-- Modelled from the external url crate: a URL split into the part before
the fragment and the optional fragment. -/
structure Url where
  base : String
  fragment : Option String
deriving DecidableEq, Repr

/-- Url::set_fragment: replaces only the fragment, leaving the base alone. -/
def Url.setFragment (u : Url) (f : Option String) : Url := { u with fragment := f }

/-- Textual form of a URL: base, then "#" and the fragment when present. -/
def Url.render (u : Url) : String :=
  u.base ++ (match u.fragment with | none => "" | some f => "#" ++ f)

/-- The fields of rattler's PackageRecord that the exporter touches: the
normalized name, the optional digests, and the dependency names. -/
structure PackageRecord where
  name : String
  md5 : Option (List Nat)
  sha256 : Option (List Nat)
  depends : List String
deriving DecidableEq, Repr

/-- Rattler's RepoDataRecord: a package record plus its download URL. -/
structure RepoDataRecord where
  packageRecord : PackageRecord
  url : Url
deriving DecidableEq, Repr

/-- Lowercase hexadecimal digit for a value below 16. -/
def hexDigitChar (n : Nat) : Char :=
  if n < 10 then Char.ofNat (48 + n) else Char.ofNat (87 + n)

/-- Two lowercase hex digits of one byte (the %02x rendering). -/
def byteToHex (b : Nat) : String :=
  String.mk [hexDigitChar (b / 16 % 16), hexDigitChar (b % 16)]

/-- Lowercase hexadecimal rendering of a digest, byte by byte: what
format!("{:x}", hash) produces on an md5 digest. -/
def md5ToHex : List Nat → String
  | [] => ""
  | b :: t => byteToHex b ++ md5ToHex t

/-- Rattler's ExplicitEnvironmentEntry: one pinned URL. -/
structure ExplicitEnvironmentEntry where
  url : Url
deriving DecidableEq, Repr

/-- Rattler's ExplicitEnvironmentSpec: platform marker plus entries. -/
structure ExplicitEnvironmentSpec where
  platform : Option Platform
  packages : List ExplicitEnvironmentEntry
deriving DecidableEq, Repr

/-- Loop body of build_explicit_spec: each package must carry an md5 digest,
which becomes the URL fragment; a package without one aborts the build. -/
def buildEntries : List RepoDataRecord → Except String (List ExplicitEnvironmentEntry)
  | [] => .ok []
  | cp :: rest =>
    match cp.packageRecord.md5 with
    | none =>
      .error ("Package " ++ cp.packageRecord.name ++ " does not contain an md5 hash")
    | some hash =>
      (buildEntries rest).map
        (fun entries => ⟨cp.url.setFragment (some (md5ToHex hash))⟩ :: entries)

/-- build_explicit_spec from conda_explicit_spec.rs. -/
def build_explicit_spec (platform : Platform) (condaPackages : List RepoDataRecord) :
    Except String ExplicitEnvironmentSpec :=
  (buildEntries condaPackages).map
    (fun packages => { platform := some platform, packages := packages })

/-- A file written to disk, modelled as its path and content. -/
structure FileWrite where
  path : String
  content : String
deriving DecidableEq, Repr

/-- Modelled from the external rattler crate: ExplicitEnvironmentSpec's
to_spec_string — the platform marker line, the @EXPLICIT marker, then one
rendered URL per line. -/
def ExplicitEnvironmentSpec.toSpecString (s : ExplicitEnvironmentSpec) : String :=
  (match s.platform with
   | some p => "# platform: " ++ p ++ "\n"
   | none => "")
  ++ "@EXPLICIT\n"
  ++ String.join (s.packages.map (fun e => e.url.render ++ "\n"))

/-- render_explicit_spec from conda_explicit_spec.rs: an empty entry list
writes nothing; otherwise the header comment and the spec string go to the
target path. -/
def render_explicit_spec (target : String) (expEnvSpec : ExplicitEnvironmentSpec) :
    Option FileWrite :=
  if expEnvSpec.packages.isEmpty then none
  else some ⟨target, "# Generated by `pixi project export`\n" ++ expEnvSpec.toSpecString⟩

/-! ## Lock representation (rattler_lock types used by the exporter) -/

/-- A conda package of the lock file; it carries the repodata record that
TryFrom<CondaPackage> for RepoDataRecord extracts. -/
structure CondaPackage where
  record : RepoDataRecord
deriving DecidableEq, Repr

/-- Modelled from the external rattler_lock crate: TryFrom<CondaPackage> for
RepoDataRecord.  The lock representation here already stores a well-formed
record, so the conversion is the projection and cannot fail. -/
def CondaPackage.tryIntoRepoData (p : CondaPackage) : Except String RepoDataRecord :=
  .ok p.record

/-- The part of a PyPI lock package the exporter reads (package_data().name). -/
structure PypiPackageData where
  name : String
deriving DecidableEq, Repr

/-- A lock package tagged by ecosystem. -/
inductive Package where
  | conda (p : CondaPackage)
  | pypi (p : PypiPackageData)
deriving DecidableEq, Repr

/-- Whether a lock package is a conda (binary-ecosystem) package. -/
def Package.isConda : Package → Bool
  | .conda _ => true
  | .pypi _ => false

/-- Whether a lock package is a conda package carrying an md5 digest. -/
def Package.condaWithMd5 : Package → Bool
  | .conda c => (c.record.packageRecord.md5).isSome
  | .pypi _ => false

/-- An environment of the lock: per platform, the ordered package list. -/
structure Environment where
  packagesByPlatform : List (Platform × List Package)
deriving DecidableEq, Repr

/-- Environment::platforms of rattler_lock. -/
def Environment.platforms (env : Environment) : List Platform :=
  env.packagesByPlatform.map Prod.fst

/-- Environment::packages of rattler_lock: None when the platform is absent. -/
def Environment.packages (env : Environment) (platform : Platform) :
    Option (List Package) :=
  env.packagesByPlatform.lookup platform

/-- The lock file: environment name to environment. -/
structure LockFile where
  environments : List (String × Environment)
deriving DecidableEq, Repr

/-- LockFile::environment of rattler_lock. -/
def LockFile.environment (lf : LockFile) (name : String) : Option Environment :=
  lf.environments.lookup name

/-! ## Topological sorter (modelled from the spec) -/

/-- Names of the packages of a record list. -/
def recordNames (rs : List RepoDataRecord) : List String :=
  rs.map (fun r => r.packageRecord.name)

/-- Modelled from the spec: readiness test of the topological sorter — every
dependency that names a package of the input set has already been emitted;
dependencies naming packages outside the set are ignored. -/
def readyRecord (allNames emitted : List String) (r : RepoDataRecord) : Bool :=
  r.packageRecord.depends.all
    (fun d => !(allNames.contains d) || emitted.contains d)

/-- Modelled from the spec: extract the first ready package of the list,
keeping the relative order of the others (the stable tie-break). -/
def extractFirstReady (allNames emitted : List String) :
    List RepoDataRecord → Option (RepoDataRecord × List RepoDataRecord)
  | [] => none
  | r :: rest =>
    if readyRecord allNames emitted r then some (r, rest)
    else
      match extractFirstReady allNames emitted rest with
      | some (x, rest2) => some (x, r :: rest2)
      | none => none

/-- Modelled from the spec: the repeated zero-in-degree extraction loop of
the Conda-Ecosystem Topological Sorter.  When no package is ready (a
dependency cycle) the remaining packages are kept in input order: the call
site in render_env_platform types the sorter as infallible (a plain Vec in,
Vec out), so a cycle cannot be reported as an error. -/
def sortLoop (allNames : List String) :
    Nat → List String → List RepoDataRecord → List RepoDataRecord
  | 0, _, remaining => remaining
  | fuel + 1, emitted, remaining =>
    match extractFirstReady allNames emitted remaining with
    | none => remaining
    | some (r, rest) =>
      r :: sortLoop allNames fuel (r.packageRecord.name :: emitted) rest

/-- Modelled from the spec: PackageRecord::sort_topologically of the external
rattler crate, as the spec describes the Conda-Ecosystem Topological Sorter
(stable repeated extraction of dependency-satisfied packages). -/
def sort_topologically (input : List RepoDataRecord) : List RepoDataRecord :=
  sortLoop (recordNames input) input.length [] input

/-- Dependency-respecting order: every package's dependencies that name a
package of the set appear among the already emitted names. -/
def depsSatisfiedInOrder (allNames : List String) :
    List String → List RepoDataRecord → Prop
  | _, [] => True
  | emitted, r :: rest =>
    (∀ d ∈ r.packageRecord.depends, d ∈ allNames → d ∈ emitted) ∧
    depsSatisfiedInOrder allNames (r.packageRecord.name :: emitted) rest

/-! ## Concrete fixtures used to evaluate the operations -/

/-- Record "a" of a two-package dependency cycle: a depends on b. -/
def recACyc : RepoDataRecord :=
  { packageRecord :=
      { name := "a", md5 := some [0, 1, 2, 3, 4, 5, 6, 7, 8, 9, 10, 11, 12, 13, 14, 15],
        sha256 := none, depends := ["b"] },
    url := { base := "https://conda.example/a-1.0-0.conda", fragment := none } }

/-- Record "b" of a two-package dependency cycle: b depends on a. -/
def recBCyc : RepoDataRecord :=
  { packageRecord :=
      { name := "b", md5 := some [16, 17, 18, 19, 20, 21, 22, 23, 24, 25, 26, 27, 28, 29, 30, 31],
        sha256 := none, depends := ["a"] },
    url := { base := "https://conda.example/b-1.0-0.conda", fragment := none } }

/-- An environment whose only platform holds the cyclic pair. -/
def cycEnv : Environment :=
  ⟨[("linux-64", [Package.conda ⟨recACyc⟩, Package.conda ⟨recBCyc⟩])]⟩

/-- Acyclic fixture: foo depends on bar. -/
def recFoo : RepoDataRecord :=
  { packageRecord :=
      { name := "foo", md5 := some [170, 187], sha256 := none, depends := ["bar"] },
    url := { base := "https://conda.example/foo-1.0-0.conda", fragment := none } }

/-- Acyclic fixture: bar has no dependencies. -/
def recBar : RepoDataRecord :=
  { packageRecord :=
      { name := "bar", md5 := some [1, 2], sha256 := none, depends := [] },
    url := { base := "https://conda.example/bar-1.0-0.conda", fragment := none } }

/-- A record with a sha256 digest but no md5 digest. -/
def recNoMd5 : RepoDataRecord :=
  { packageRecord :=
      { name := "foo", md5 := none, sha256 := some [9, 9, 9], depends := [] },
    url := { base := "https://conda.example/foo-1.0-0.conda", fragment := none } }

/-- An environment whose only platform holds the md5-less record. -/
def envNoMd5 : Environment := ⟨[("linux-64", [Package.conda ⟨recNoMd5⟩])]⟩

/-- A mixed-ecosystem environment: one conda package and one PyPI package. -/
def mixedEnv : Environment :=
  ⟨[("linux-64", [Package.conda ⟨recBar⟩, Package.pypi ⟨"requests"⟩])]⟩

/-- An environment resolved for one platform with an empty package list. -/
def emptyEnv : Environment := ⟨[("linux-64", [])]⟩

/-- A lock file with a single environment named "default". -/
def demoLock : LockFile := ⟨[("default", emptyEnv)]⟩

/-! ## render_env_platform and execute (conda_explicit_spec.rs) -/

/-- The fatal message of render_env_platform when a PyPI package is met and
ignore_pypi_errors is not set. -/
def pypiNotSupportedMsg : String :=
  "PyPI packages are not supported in a conda explicit spec. Specify "
  ++ "`--ignore-pypi-errors` to ignore this error and create a spec file "
  ++ "containing only the conda dependencies from the lockfile."

/-- The per-package warning of render_env_platform for a dropped PyPI
package. -/
def pypiIgnoredWarning (name : String) : String :=
  "ignoring PyPI package " ++ name ++ " since PyPI packages are not supported"

/-- The package loop of render_env_platform: conda packages are collected in
order; a PyPI package is dropped with a warning when ignore_pypi_errors is
set and aborts the render otherwise. -/
def collectCondaPackages (ignorePypiErrors : Bool) :
    List Package → Except String (List CondaPackage × List String)
  | [] => .ok ([], [])
  | .conda p :: rest =>
    (collectCondaPackages ignorePypiErrors rest).map (fun r => (p :: r.1, r.2))
  | .pypi pyp :: rest =>
    if ignorePypiErrors then
      (collectCondaPackages ignorePypiErrors rest).map
        (fun r => (r.1, pypiIgnoredWarning pyp.name :: r.2))
    else
      .error pypiNotSupportedMsg

/-- The conda packages of a lock package list, in order. -/
def condaOnly (packages : List Package) : List CondaPackage :=
  packages.filterMap (fun p =>
    match p with
    | .conda c => some c
    | .pypi _ => none)

/-- The per-package PyPI warnings a lock package list produces when
ignore_pypi_errors is set, in order. -/
def pypiWarningsOf (packages : List Package) : List String :=
  packages.filterMap (fun p =>
    match p with
    | .conda _ => none
    | .pypi q => some (pypiIgnoredWarning q.name))

/-- Body of render_env_platform after the platform lookup: filter the
packages, convert, sort topologically, build the explicit spec, and render
it to the per-work-item path.  The source quotes the platform in the
platform-not-found message; the quotes are dropped here. -/
def render_packages (outputDir envName : String) (platform : Platform)
    (ignorePypiErrors : Bool) (packages : List Package) :
    Except String (List String × Option FileWrite) :=
  match collectCondaPackages ignorePypiErrors packages with
  | .error e => .error e
  | .ok (condaPackagesFromLockfile, warnings) =>
    match condaPackagesFromLockfile.mapM CondaPackage.tryIntoRepoData with
    | .error e => .error e
    | .ok repodata =>
      match build_explicit_spec platform (sort_topologically repodata) with
      | .error e => .error e
      | .ok ees =>
        let target := outputDir ++ "/" ++ envName ++ "_" ++ platform ++ "_conda_spec.txt"
        .ok (warnings, render_explicit_spec target ees)

/-- render_env_platform from conda_explicit_spec.rs: the warnings emitted and
the file written, or the fatal error. -/
def render_env_platform (outputDir envName : String) (env : Environment)
    (platform : Platform) (ignorePypiErrors : Bool) :
    Except String (List String × Option FileWrite) :=
  match env.packages platform with
  | none => .error ("platform " ++ platform ++ " not found for env " ++ envName)
  | some packages =>
    render_packages outputDir envName platform ignorePypiErrors packages

/-- The CLI arguments execute consumes (conda_explicit_spec.rs Args). -/
structure Args where
  outputDir : String
  environment : Option (List String)
  platform : Option (List Platform)
  ignorePypiErrors : Bool
deriving Repr

/-- Loop of the environment-filter stage of execute: look each requested
name up in order; the first unknown one aborts with the fatal error. -/
def selectLoop (lf : LockFile) : List String → Except String (List (String × Environment))
  | [] => .ok []
  | envName :: rest =>
    match lf.environment envName with
    | some env => (selectLoop lf rest).map (fun es => (envName, env) :: es)
    | none => .error ("unknown environment " ++ envName)

/-- Environment-filter stage of execute: explicitly requested names must all
exist in the lock; an unknown one is fatal.  No filter selects every
environment of the lock. -/
def selectEnvironments (lf : LockFile) :
    Option (List String) → Except String (List (String × Environment))
  | some envNames => selectLoop lf envNames
  | none => .ok lf.environments

/-- The warning execute logs for a requested platform an environment does not
 have. -/
def platformSkipWarning (p : Platform) (envName : String) : String :=
  "Platform " ++ p ++ " not available for environment " ++ envName ++ ". Skipping..."

/-- Platform-filter stage of execute for one environment: requested platforms
are intersected with the available set, an unavailable one produces only a
warning.  With no filter every available platform is taken; the source
iterates a HashSet there (unspecified order), modelled as the
environment's platform list order. -/
def expandEnv (envName : String) (env : Environment) :
    Option (List Platform) → List (String × Environment × Platform) × List String
  | some plats =>
    (plats.filterMap (fun p =>
        if env.platforms.contains p then some (envName, env, p) else none),
     plats.filterMap (fun p =>
        if env.platforms.contains p then none
        else some (platformSkipWarning p envName)))
  | none => (env.platforms.map (fun p => (envName, env, p)), [])

/-- The final loop of execute: render every work-item in order; a fatal
render error aborts the whole run. -/
def renderAll (outputDir : String) (ignorePypiErrors : Bool) :
    List (String × Environment × Platform) → Except String (List String × List FileWrite)
  | [] => .ok ([], [])
  | (envName, env, p) :: rest =>
    match render_env_platform outputDir envName env p ignorePypiErrors with
    | .error e => .error e
    | .ok (ws, fw) =>
      match renderAll outputDir ignorePypiErrors rest with
      | .error e => .error e
      | .ok (ws2, files) => .ok (ws ++ ws2, fw.toList ++ files)

/-- execute from conda_explicit_spec.rs, after the lock-file update the
external orchestrator performs: select environments, expand platforms, and
render every (environment, platform) work-item.  The result collects the
warnings and the files written. -/
def execute (lf : LockFile) (args : Args) :
    Except String (List String × List FileWrite) :=
  match selectEnvironments lf args.environment with
  | .error e => .error e
  | .ok environments =>
    let expanded := environments.map (fun ne => expandEnv ne.1 ne.2 args.platform)
    let warnings := (expanded.map Prod.snd).flatten
    let envPlatform := (expanded.map Prod.fst).flatten
    match renderAll args.outputDir args.ignorePypiErrors envPlatform with
    | .error e => .error e
    | .ok (ws, files) => .ok (warnings ++ ws, files)

/-! ## Theorems: package identity, versions, git revisions (C1, C8, C9) -/

/-- Claim C1 (code evaluation at the failing input): "Foo-Bar" and "foo_bar"
both parse and normalize to the same name, and each keeps its own source
text, yet the derived two-field equality of PyPiPackageName distinguishes
the two values and their derived-hash field streams differ: the code's
derived Eq/Hash contradict the claim (and the Borrow contract the type
also declares, which demands agreement with normalized-form equality). -/
theorem c1_derived_equality_uses_source_field :
    PyPiPackageName.fromStr "Foo-Bar"
      = .ok { source := "Foo-Bar", normalized := ⟨"foo-bar"⟩ } ∧
    PyPiPackageName.fromStr "foo_bar"
      = .ok { source := "foo_bar", normalized := ⟨"foo-bar"⟩ } ∧
    PyPiPackageName.asNormalized { source := "Foo-Bar", normalized := ⟨"foo-bar"⟩ }
      = PyPiPackageName.asNormalized { source := "foo_bar", normalized := ⟨"foo-bar"⟩ } ∧
    PyPiPackageName.asSource { source := "Foo-Bar", normalized := ⟨"foo-bar"⟩ } = "Foo-Bar" ∧
    PyPiPackageName.asSource { source := "foo_bar", normalized := ⟨"foo-bar"⟩ } = "foo_bar" ∧
    ({ source := "Foo-Bar", normalized := ⟨"foo-bar"⟩ } : PyPiPackageName)
      ≠ { source := "foo_bar", normalized := ⟨"foo-bar"⟩ } ∧
    PyPiPackageName.hashStream { source := "Foo-Bar", normalized := ⟨"foo-bar"⟩ }
      ≠ PyPiPackageName.hashStream { source := "foo_bar", normalized := ⟨"foo-bar"⟩ } :=
  ⟨by decide, by decide, rfl, rfl, rfl, by decide, by decide⟩

/-- Claim C8: parsing the literal wildcard token yields the distinct Star
variant, serializing Star returns the literal token "*" and never the empty
string, and converting Star to the underlying constraint representation
yields the empty constraint set. -/
theorem c8_wildcard_round_trip :
    VersionOrStar.fromStr "*" = .ok .star ∧
    (VersionOrStar.star).toStr = "*" ∧
    (VersionOrStar.star).toStr ≠ "" ∧
    (VersionOrStar.star).toVersionSpecifiers = VersionSpecifiers.empty ∧
    ∀ v : VersionSpecifiers, VersionOrStar.star ≠ VersionOrStar.version v := by
  refine ⟨by decide, rfl, by decide, rfl, ?_⟩
  intro v h
  exact VersionOrStar.noConfusion h

/-- Claim C9 counterexample: a 40-character string that is not hexadecimal
— a plausible branch or tag name — is not a full hex hash, yet the code
classifies it as Full, not Short, refuting "any other string (empty, short
hash, branch name, tag name) classifies as Short". -/
theorem c9_counterexample :
    isFullHexHash "zzzzzzzzzzzzzzzzzzzzzzzzzzzzzzzzzzzzzzzz" = false ∧
    GitRev.fromStr "zzzzzzzzzzzzzzzzzzzzzzzzzzzzzzzzzzzzzzzz"
      ≠ GitRev.short "zzzzzzzzzzzzzzzzzzzzzzzzzzzzzzzzzzzzzzzz" ∧
    GitRev.fromStr "zzzzzzzzzzzzzzzzzzzzzzzzzzzzzzzzzzzzzzzz"
      = GitRev.full "zzzzzzzzzzzzzzzzzzzzzzzzzzzzzzzzzzzzzzzz" :=
  ⟨by decide, by decide, by decide⟩

/-- Claim C9 (amended): classification is by length alone: every string of
byte length exactly 40 — in particular every 40-character hex string —
classifies as Full and converts to a pinned full-commit reference; every
string of any other length classifies as Short and converts to a
branch/tag/abbreviated-commit reference. -/
theorem c9_length_classification (s : String) :
    (isFullHexHash s = true → GitRev.fromStr s = GitRev.full s) ∧
    (s.utf8ByteSize = 40 → GitRev.fromStr s = GitRev.full s) ∧
    (s.utf8ByteSize ≠ 40 → GitRev.fromStr s = GitRev.short s) ∧
    (GitRev.fromStr s).toGitReference
      = (if s.utf8ByteSize = 40 then GitReference.fullCommit s
         else GitReference.branchOrTagOrCommit s) := by
  refine ⟨?_, ?_, ?_, ?_⟩
  · intro h
    simp [isFullHexHash] at h
    simp [GitRev.fromStr, h.1]
  · intro h; simp [GitRev.fromStr, h]
  · intro h; simp [GitRev.fromStr, h]
  · by_cases h : s.utf8ByteSize = 40 <;>
      simp [GitRev.fromStr, GitRev.toGitReference, h]

/-- Claim C9 witness: a 40-character hex string classifies as Full; the short
name "main" classifies as Short. -/
theorem c9_length_classification_witness :
    GitRev.fromStr "0123456789abcdef0123456789abcdef01234567"
      = GitRev.full "0123456789abcdef0123456789abcdef01234567" ∧
    GitRev.fromStr "main" = GitRev.short "main" :=
  ⟨(c9_length_classification "0123456789abcdef0123456789abcdef01234567").1 (by decide),
   (c9_length_classification "main").2.2.1 (by decide)⟩

/-! ## Theorems: export engine (C2, C3, C4, C5, C6, C7, C10) -/

/-! ## Helper lemmas -/

theorem readyRecord_iff (allNames emitted : List String) (r : RepoDataRecord) :
    readyRecord allNames emitted r = true ↔
      ∀ d ∈ r.packageRecord.depends, d ∈ allNames → d ∈ emitted := by
  simp [readyRecord, List.all_eq_true]
  constructor
  · intro h d hd hall
    rcases h d hd with h1 | h1
    · exact absurd hall h1
    · exact h1
  · intro h d hd
    by_cases hall : d ∈ allNames
    · exact Or.inr (h d hd hall)
    · exact Or.inl hall

theorem extractFirstReady_perm (allNames emitted : List String) :
    ∀ (l : List RepoDataRecord) (x : RepoDataRecord) (rest : List RepoDataRecord),
      extractFirstReady allNames emitted l = some (x, rest) → l.Perm (x :: rest) := by
  intro l
  induction l with
  | nil => intro x rest h; simp [extractFirstReady] at h
  | cons r t ih =>
    intro x rest h
    by_cases hr : readyRecord allNames emitted r = true
    · simp [extractFirstReady, hr] at h
      rw [h.1, h.2]
    · cases hE : extractFirstReady allNames emitted t with
      | none => simp [extractFirstReady, hr, hE] at h
      | some pr =>
        obtain ⟨y, rest2⟩ := pr
        simp [extractFirstReady, hr, hE] at h
        rcases h with ⟨hx, hrest⟩
        subst hrest
        subst hx
        exact ((ih _ _ hE).cons r).trans (List.Perm.swap _ r rest2)

theorem extractFirstReady_some_of_ready (allNames emitted : List String) :
    ∀ (l : List RepoDataRecord), (∃ r ∈ l, readyRecord allNames emitted r = true) →
      ∃ x rest, extractFirstReady allNames emitted l = some (x, rest) ∧
        readyRecord allNames emitted x = true := by
  intro l
  induction l with
  | nil => intro h; simp at h
  | cons r t ih =>
    intro h
    by_cases hr : readyRecord allNames emitted r = true
    · exact ⟨r, t, by simp [extractFirstReady, hr], hr⟩
    · obtain ⟨r0, hr0mem, hr0⟩ := h
      have hr0t : r0 ∈ t := by
        rcases List.mem_cons.mp hr0mem with h1 | h1
        · subst h1; exact absurd hr0 hr
        · exact h1
      obtain ⟨x, rest2, hE, hx⟩ := ih ⟨r0, hr0t, hr0⟩
      exact ⟨x, r :: rest2, by simp [extractFirstReady, hr, hE], hx⟩

theorem sortLoop_perm (allNames : List String) :
    ∀ (fuel : Nat) (emitted : List String) (remaining : List RepoDataRecord),
      (sortLoop allNames fuel emitted remaining).Perm remaining := by
  intro fuel
  induction fuel with
  | zero => intro emitted remaining; simp [sortLoop]
  | succ n ih =>
    intro emitted remaining
    cases hE : extractFirstReady allNames emitted remaining with
    | none => simp [sortLoop, hE]
    | some pr =>
      obtain ⟨r, rest⟩ := pr
      simp only [sortLoop, hE]
      exact ((ih _ _).cons r).trans (extractFirstReady_perm _ _ _ _ _ hE).symm

theorem sort_topologically_perm (input : List RepoDataRecord) :
    (sort_topologically input).Perm input :=
  sortLoop_perm _ _ _ _

theorem exists_min_rank {α : Type} (f : α → Nat) :
    ∀ (l : List α), l ≠ [] → ∃ m ∈ l, ∀ q ∈ l, f m ≤ f q := by
  intro l
  induction l with
  | nil => intro h; exact absurd rfl h
  | cons x t ih =>
    intro _
    cases t with
    | nil => exact ⟨x, by simp, by simp⟩
    | cons y u =>
      obtain ⟨m, hm, hmin⟩ := ih (by simp)
      by_cases hx : f x ≤ f m
      · refine ⟨x, by simp, ?_⟩
        intro q hq
        rcases List.mem_cons.mp hq with h1 | h1
        · subst h1; exact le_refl _
        · exact le_trans hx (hmin q h1)
      · refine ⟨m, List.mem_cons_of_mem x hm, ?_⟩
        intro q hq
        rcases List.mem_cons.mp hq with h1 | h1
        · subst h1; exact le_of_lt (lt_of_not_le hx)
        · exact hmin q h1

theorem sortLoop_depsSatisfied (allNames : List String) (rank : String → Nat) :
    ∀ (fuel : Nat) (emitted : List String) (remaining : List RepoDataRecord),
      remaining.length ≤ fuel →
      (∀ r ∈ remaining, ∀ d ∈ r.packageRecord.depends, d ∈ allNames →
        d ∈ emitted ∨ ∃ q ∈ remaining, q.packageRecord.name = d ∧
          rank d < rank r.packageRecord.name) →
      depsSatisfiedInOrder allNames emitted (sortLoop allNames fuel emitted remaining) := by
  intro fuel
  induction fuel with
  | zero =>
    intro emitted remaining hlen _
    have : remaining = [] := List.eq_nil_of_length_eq_zero (Nat.le_zero.mp hlen)
    subst this
    simp [sortLoop, depsSatisfiedInOrder]
  | succ n ih =>
    intro emitted remaining hlen hinv
    cases hrem : remaining with
    | nil => simp [sortLoop, extractFirstReady, depsSatisfiedInOrder]
    | cons r0 t0 =>
      subst hrem
      -- a minimal-rank element is ready
      obtain ⟨m, hmmem, hmin⟩ :=
        exists_min_rank (fun r => rank r.packageRecord.name) (r0 :: t0) (by simp)
      have hmready : readyRecord allNames emitted m = true := by
        rw [readyRecord_iff]
        intro d hd hall
        rcases hinv m hmmem d hd hall with h1 | h1
        · exact h1
        · obtain ⟨q, hq, hqname, hqlt⟩ := h1
          have := hmin q hq
          rw [hqname] at this
          omega
      obtain ⟨x, rest, hE, hxready⟩ :=
        extractFirstReady_some_of_ready allNames emitted (r0 :: t0) ⟨m, hmmem, hmready⟩
      have hperm : (r0 :: t0).Perm (x :: rest) := extractFirstReady_perm _ _ _ _ _ hE
      simp only [sortLoop, hE]
      constructor
      · exact (readyRecord_iff _ _ _).mp hxready
      · apply ih
        · have := hperm.length_eq
          simp at this
          simp at hlen
          omega
        · intro p hp d hd hall
          have hpmem : p ∈ r0 :: t0 := hperm.mem_iff.mpr (List.mem_cons_of_mem x hp)
          rcases hinv p hpmem d hd hall with h1 | h1
          · exact Or.inl (List.mem_cons_of_mem _ h1)
          · obtain ⟨q, hq, hqname, hqlt⟩ := h1
            have hqmem : q ∈ x :: rest := hperm.mem_iff.mp hq
            rcases List.mem_cons.mp hqmem with h2 | h2
            · subst h2
              exact Or.inl (by rw [hqname]; exact List.mem_cons_self _ _)
            · exact Or.inr ⟨q, h2, hqname, hqlt⟩

theorem depsSatisfied_positions (allNames : List String) :
    ∀ (out : List RepoDataRecord) (emitted : List String),
      depsSatisfiedInOrder allNames emitted out →
      ∀ (i : Nat) (hi : i < out.length),
        ∀ d ∈ (out.get ⟨i, hi⟩).packageRecord.depends, d ∈ allNames →
          d ∈ emitted ∨ ∃ (j : Nat) (hj : j < out.length), j < i ∧
            (out.get ⟨j, hj⟩).packageRecord.name = d := by
  intro out
  induction out with
  | nil => intro emitted _ i hi; simp at hi
  | cons r rest ih =>
    intro emitted hsat i hi d hd hall
    obtain ⟨hhead, htail⟩ := hsat
    cases i with
    | zero => exact Or.inl (hhead d hd hall)
    | succ k =>
      have hk : k < rest.length := by simpa using hi
      have := ih (r.packageRecord.name :: emitted) htail k hk d (by simpa using hd) hall
      rcases this with h1 | h1
      · rcases List.mem_cons.mp h1 with h2 | h2
        · exact Or.inr ⟨0, by simp, Nat.succ_pos k, h2.symm⟩
        · exact Or.inl h2
      · obtain ⟨j, hj, hjk, hjname⟩ := h1
        exact Or.inr ⟨j + 1, by simpa using hj, by omega, by simpa using hjname⟩

/-- Claim C3: for every acyclic input list of conda packages (distinct names,
dependency relation admitting a rank function), the topologically sorted
output is a permutation of the input (same set of packages), and whenever
the package at position j names a dependency of the package at position i,
j is strictly less than i (every dependency precedes its dependent). -/
theorem c3_sorted_output (input : List RepoDataRecord)
    (hnodup : (recordNames input).Nodup)
    (hacyc : ∃ rank : String → Nat, ∀ p ∈ input, ∀ q ∈ input,
        q.packageRecord.name ∈ p.packageRecord.depends →
        rank q.packageRecord.name < rank p.packageRecord.name) :
    (sort_topologically input).Perm input ∧
    ∀ (i j : Nat) (hi : i < (sort_topologically input).length)
        (hj : j < (sort_topologically input).length),
      ((sort_topologically input).get ⟨j, hj⟩).packageRecord.name
          ∈ ((sort_topologically input).get ⟨i, hi⟩).packageRecord.depends →
      j < i := by
  obtain ⟨rank, hrank⟩ := hacyc
  have hperm : (sort_topologically input).Perm input := sort_topologically_perm input
  refine ⟨hperm, ?_⟩
  have hsat : depsSatisfiedInOrder (recordNames input) [] (sort_topologically input) := by
    apply sortLoop_depsSatisfied (recordNames input) rank input.length [] input (le_refl _)
    intro r hr d hd hall
    simp only [recordNames, List.mem_map] at hall
    obtain ⟨q, hq, hqname⟩ := hall
    refine Or.inr ⟨q, hq, hqname, ?_⟩
    have := hrank r hr q hq (by rw [hqname]; exact hd)
    rw [hqname] at this
    exact this
  intro i j hi hj hdep
  set out := sort_topologically input with hout
  have hall : (out.get ⟨j, hj⟩).packageRecord.name ∈ recordNames input := by
    simp only [recordNames, List.mem_map]
    exact ⟨out.get ⟨j, hj⟩, hperm.mem_iff.mp (out.get_mem j hj), rfl⟩
  have := depsSatisfied_positions (recordNames input) out [] hsat i hi _ hdep hall
  rcases this with h1 | h1
  · simp at h1
  · obtain ⟨k, hk, hki, hkname⟩ := h1
    have hmapnodup : (out.map (fun r => r.packageRecord.name)).Nodup :=
      ((hperm.map (fun r => r.packageRecord.name)).symm).nodup (by simpa [recordNames] using hnodup)
    have hkj : k = j := by
      have hk2 : k < (out.map (fun r => r.packageRecord.name)).length := by simpa using hk
      have hj2 : j < (out.map (fun r => r.packageRecord.name)).length := by simpa using hj
      have h2 : (out.map (fun r => r.packageRecord.name)).get ⟨k, hk2⟩
          = (out.map (fun r => r.packageRecord.name)).get ⟨j, hj2⟩ := by
        rw [List.get_map, List.get_map]
        exact hkname
      have h3 := (List.nodup_iff_injective_get.mp hmapnodup) h2
      exact Fin.mk.inj_iff.mp h3
    omega

theorem buildEntries_ok_md5 :
    ∀ (rs : List RepoDataRecord) (es : List ExplicitEnvironmentEntry),
      buildEntries rs = .ok es → ∀ r ∈ rs, r.packageRecord.md5.isSome := by
  intro rs
  induction rs with
  | nil => intro es _ r hr; simp at hr
  | cons cp rest ih =>
    intro es h r hr
    cases hm : cp.packageRecord.md5 with
    | none => simp [buildEntries, hm] at h
    | some hash =>
      cases hb : buildEntries rest with
      | error e => simp [buildEntries, hm, hb, Except.map] at h
      | ok es2 =>
        rcases List.mem_cons.mp hr with h1 | h1
        · subst h1; simp [hm]
        · exact ih es2 hb r h1

theorem buildEntries_ok_of_md5 :
    ∀ (rs : List RepoDataRecord), (∀ r ∈ rs, r.packageRecord.md5.isSome) →
      ∃ es, buildEntries rs = .ok es := by
  intro rs
  induction rs with
  | nil => intro _; exact ⟨[], rfl⟩
  | cons cp rest ih =>
    intro h
    have hcp := h cp (List.mem_cons_self _ _)
    cases hm : cp.packageRecord.md5 with
    | none => rw [hm] at hcp; simp at hcp
    | some hash =>
      obtain ⟨es, hes⟩ := ih (fun r hr => h r (List.mem_cons_of_mem _ hr))
      exact ⟨⟨cp.url.setFragment (some (md5ToHex hash))⟩ :: es,
        by simp [buildEntries, hm, hes, Except.map]⟩

theorem buildEntries_error_of_missing :
    ∀ (rs : List RepoDataRecord), (∃ r ∈ rs, r.packageRecord.md5 = none) →
      ∃ n, buildEntries rs
          = .error ("Package " ++ n ++ " does not contain an md5 hash") ∧
        ∃ r ∈ rs, r.packageRecord.name = n ∧ r.packageRecord.md5 = none := by
  intro rs
  induction rs with
  | nil => intro h; simp at h
  | cons cp rest ih =>
    intro h
    cases hm : cp.packageRecord.md5 with
    | none =>
      exact ⟨cp.packageRecord.name, by simp [buildEntries, hm],
        cp, List.mem_cons_self _ _, rfl, hm⟩
    | some hash =>
      obtain ⟨r0, hr0, hr0m⟩ := h
      have hr0rest : r0 ∈ rest := by
        rcases List.mem_cons.mp hr0 with h1 | h1
        · subst h1; rw [hm] at hr0m; simp at hr0m
        · exact h1
      obtain ⟨n, hn, r1, hr1, hr1n, hr1m⟩ := ih ⟨r0, hr0rest, hr0m⟩
      exact ⟨n, by simp [buildEntries, hm, hn, Except.map],
        r1, List.mem_cons_of_mem _ hr1, hr1n, hr1m⟩

theorem buildEntries_ok_get :
    ∀ (rs : List RepoDataRecord) (es : List ExplicitEnvironmentEntry),
      buildEntries rs = .ok es →
      es.length = rs.length ∧
      ∀ (i : Nat) (hi : i < rs.length) (hi2 : i < es.length),
        ∃ hsh, (rs.get ⟨i, hi⟩).packageRecord.md5 = some hsh ∧
          (es.get ⟨i, hi2⟩).url
            = (rs.get ⟨i, hi⟩).url.setFragment (some (md5ToHex hsh)) := by
  intro rs
  induction rs with
  | nil =>
    intro es h
    simp [buildEntries] at h
    subst h
    exact ⟨rfl, by intro i hi; simp at hi⟩
  | cons cp rest ih =>
    intro es h
    cases hm : cp.packageRecord.md5 with
    | none => simp [buildEntries, hm] at h
    | some hash =>
      cases hb : buildEntries rest with
      | error e => simp [buildEntries, hm, hb, Except.map] at h
      | ok es2 =>
        simp [buildEntries, hm, hb, Except.map] at h
        subst h
        obtain ⟨hlen, hget⟩ := ih es2 hb
        refine ⟨by simp [hlen], ?_⟩
        intro i hi hi2
        cases i with
        | zero => exact ⟨hash, hm, rfl⟩
        | succ k =>
          have hk : k < rest.length := by simpa using hi
          have hk2 : k < es2.length := by simpa using hi2
          obtain ⟨hsh, h1, h2⟩ := hget k hk hk2
          exact ⟨hsh, h1, h2⟩

theorem hexDigitChar_mem (n : Nat) (h : n < 16) :
    hexDigitChar n ∈ ("0123456789abcdef".data) := by
  interval_cases n <;> decide

theorem md5ToHex_lowercase :
    ∀ (h : List Nat), ∀ c ∈ (md5ToHex h).data, c ∈ ("0123456789abcdef".data) := by
  intro h
  induction h with
  | nil => intro c hc; simp [md5ToHex] at hc
  | cons b t ih =>
    intro c hc
    simp only [md5ToHex] at hc
    rw [String.data_append] at hc
    rcases List.mem_append.mp hc with h1 | h1
    · simp [byteToHex, String.mk] at h1
      rcases h1 with h2 | h2 <;> subst h2
      · exact hexDigitChar_mem _ (Nat.mod_lt _ (by norm_num))
      · exact hexDigitChar_mem _ (Nat.mod_lt _ (by norm_num))
    · exact ih c h1

theorem collectCondaPackages_true :
    ∀ (pkgs : List Package),
      collectCondaPackages true pkgs = .ok (condaOnly pkgs, pypiWarningsOf pkgs) := by
  intro pkgs
  induction pkgs with
  | nil => rfl
  | cons p rest ih =>
    cases p with
    | conda c => simp [collectCondaPackages, condaOnly, pypiWarningsOf, ih, Except.map]
    | pypi q => simp [collectCondaPackages, condaOnly, pypiWarningsOf, ih, Except.map]

theorem collectCondaPackages_false_error :
    ∀ (pkgs : List Package) (q : PypiPackageData), Package.pypi q ∈ pkgs →
      collectCondaPackages false pkgs = .error pypiNotSupportedMsg := by
  intro pkgs
  induction pkgs with
  | nil => intro q h; simp at h
  | cons p rest ih =>
    intro q h
    cases p with
    | conda c =>
      have hq : Package.pypi q ∈ rest := by
        rcases List.mem_cons.mp h with h1 | h1
        · exact absurd h1 (by simp)
        · exact h1
      simp [collectCondaPackages, ih q hq, Except.map]
    | pypi q2 => simp [collectCondaPackages]

theorem collectCondaPackages_all_conda :
    ∀ (pkgs : List Package) (flag : Bool),
      (∀ p ∈ pkgs, p.isConda = true) →
      collectCondaPackages flag pkgs = .ok (condaOnly pkgs, []) := by
  intro pkgs
  induction pkgs with
  | nil => intro flag _; rfl
  | cons p rest ih =>
    intro flag h
    cases p with
    | conda c =>
      have := ih flag (fun p hp => h p (List.mem_cons_of_mem _ hp))
      simp [collectCondaPackages, condaOnly, this, Except.map]
    | pypi q =>
      have := h (Package.pypi q) (List.mem_cons_self _ _)
      simp [Package.isConda] at this

theorem mapM_tryIntoRepoData :
    ∀ (cs : List CondaPackage),
      cs.mapM CondaPackage.tryIntoRepoData = .ok (cs.map CondaPackage.record) := by
  intro cs
  induction cs with
  | nil => rfl
  | cons c rest ih =>
    rw [List.mapM_cons, ih]
    rfl

theorem mem_condaOnly (c : CondaPackage) (pkgs : List Package)
    (h : Package.conda c ∈ pkgs) : c ∈ condaOnly pkgs := by
  simp only [condaOnly, List.mem_filterMap]
  exact ⟨Package.conda c, h, rfl⟩

theorem collectCondaPackages_ok_fst :
    ∀ (pkgs : List Package) (flag : Bool) (cs : List CondaPackage) (ws : List String),
      collectCondaPackages flag pkgs = .ok (cs, ws) → cs = condaOnly pkgs := by
  intro pkgs
  induction pkgs with
  | nil => intro flag cs ws h; simp [collectCondaPackages] at h; simp [condaOnly, h.1]
  | cons p rest ih =>
    intro flag cs ws h
    cases p with
    | conda c =>
      cases hr : collectCondaPackages flag rest with
      | error e => simp [collectCondaPackages, hr, Except.map] at h
      | ok pr =>
        obtain ⟨cs2, ws2⟩ := pr
        simp [collectCondaPackages, hr, Except.map] at h
        rw [show condaOnly (Package.conda c :: rest) = c :: condaOnly rest from rfl]
        rw [← h.1, ih flag cs2 ws2 hr]
    | pypi q =>
      cases flag with
      | false => simp [collectCondaPackages] at h
      | true =>
        cases hr : collectCondaPackages true rest with
        | error e => simp [collectCondaPackages, hr, Except.map] at h
        | ok pr =>
          obtain ⟨cs2, ws2⟩ := pr
          simp [collectCondaPackages, hr, Except.map] at h
          rw [show condaOnly (Package.pypi q :: rest) = condaOnly rest from rfl]
          rw [← h.1, ih true cs2 ws2 hr]

theorem condaOnly_map_conda : ∀ (cs : List CondaPackage),
    condaOnly (cs.map Package.conda) = cs
  | [] => rfl
  | c :: rest => by
    show c :: condaOnly (rest.map Package.conda) = c :: rest
    rw [condaOnly_map_conda rest]

theorem pypiWarningsOf_map_conda : ∀ (cs : List CondaPackage),
    pypiWarningsOf (cs.map Package.conda) = []
  | [] => rfl
  | c :: rest => by
    show pypiWarningsOf (rest.map Package.conda) = []
    exact pypiWarningsOf_map_conda rest

theorem render_packages_ok_of_conda_md5 (outputDir envName : String)
    (platform : Platform) (flag : Bool) (pkgs : List Package)
    (hall : pkgs.all Package.condaWithMd5 = true) :
    ∃ res, render_packages outputDir envName platform flag pkgs = .ok res := by
  have hmem := List.all_eq_true.mp hall
  have hconda : ∀ p ∈ pkgs, p.isConda = true := by
    intro p hp
    have := hmem p hp
    cases p with
    | conda c => rfl
    | pypi q => simp [Package.condaWithMd5] at this
  have hcollect := collectCondaPackages_all_conda pkgs flag hconda
  have hmd5 : ∀ r ∈ (condaOnly pkgs).map CondaPackage.record,
      r.packageRecord.md5.isSome := by
    intro r hr
    simp only [List.mem_map] at hr
    obtain ⟨c, hc, hcr⟩ := hr
    simp only [condaOnly, List.mem_filterMap] at hc
    obtain ⟨p, hp, hpc⟩ := hc
    have := hmem p hp
    cases p with
    | conda c2 =>
      simp at hpc
      subst hpc
      subst hcr
      simpa [Package.condaWithMd5] using this
    | pypi q => simp at hpc
  have hmd5sorted : ∀ r ∈ sort_topologically ((condaOnly pkgs).map CondaPackage.record),
      r.packageRecord.md5.isSome := by
    intro r hr
    exact hmd5 r ((sort_topologically_perm _).mem_iff.mp hr)
  obtain ⟨es, hes⟩ := buildEntries_ok_of_md5 _ hmd5sorted
  refine ⟨([], render_explicit_spec
      (outputDir ++ "/" ++ envName ++ "_" ++ platform ++ "_conda_spec.txt")
      { platform := some platform, packages := es }), ?_⟩
  unfold render_packages
  simp only [hcollect, mapM_tryIntoRepoData, build_explicit_spec, hes, Except.map]

theorem buildEntries_map_sha (f : RepoDataRecord → Option (List Nat)) :
    ∀ (pkgs : List RepoDataRecord),
      buildEntries (pkgs.map (fun r =>
        { r with packageRecord := { r.packageRecord with sha256 := f r } }))
        = buildEntries pkgs := by
  intro pkgs
  induction pkgs with
  | nil => rfl
  | cons cp rest ih =>
    simp only [List.map_cons, buildEntries]
    cases hm : cp.packageRecord.md5 with
    | none => simp [hm]
    | some hash => simp [hm, ih]

/-- Claim C2 (amended): a dependency cycle in the conda package list of a
work-item is NOT a fatal error: the sorter the exporter calls is infallible
(Vec in, Vec out at the call site), so for every package list of conda
packages carrying md5 digests — cyclic or not — render_env_platform
succeeds.  The claimed cycle-is-fatal behavior does not exist in the
code. -/
theorem c2_sorter_total (outputDir envName : String) (env : Environment)
    (platform : Platform) (flag : Bool) (pkgs : List Package)
    (hp : env.packages platform = some pkgs)
    (hall : pkgs.all Package.condaWithMd5 = true) :
    ∃ res, render_env_platform outputDir envName env platform flag = .ok res := by
  obtain ⟨res, hres⟩ :=
    render_packages_ok_of_conda_md5 outputDir envName platform flag pkgs hall
  refine ⟨res, ?_⟩
  unfold render_env_platform
  simp only [hp, hres]

/-- Claim C2 witness: the amended theorem applied to the concrete cyclic
environment (a depends on b, b depends on a). -/
theorem c2_witness :
    ∃ res, render_env_platform "out" "default" cycEnv "linux-64" false = .ok res :=
  c2_sorter_total "out" "default" cycEnv "linux-64" false
    [Package.conda ⟨recACyc⟩, Package.conda ⟨recBCyc⟩] (by decide) (by decide)

/-- Claim C2 counterexample: the concrete two-package dependency cycle
(a depends on b and b depends on a) renders successfully — the export does
not fail with a reported fatal error on a cyclic work-item, contradicting
the claim as stated. -/
theorem c2_counterexample :
    ("b" ∈ recACyc.packageRecord.depends ∧ "a" ∈ recBCyc.packageRecord.depends) ∧
    cycEnv.packages "linux-64"
      = some [Package.conda ⟨recACyc⟩, Package.conda ⟨recBCyc⟩] ∧
    ∃ ws fw, render_env_platform "out" "default" cycEnv "linux-64" false
      = .ok (ws, fw) := by
  refine ⟨⟨by decide, by decide⟩, by decide, ?_⟩
  exact ⟨_, _, rfl⟩

/-- Claim C4: a conda package without a checksum is fatal: build_explicit_spec
errors whenever some package lacks an md5 digest, and render_env_platform
errors (so no file is produced) for every value of the ignore_pypi_errors
flag — no flag overrides the failure. -/
theorem c4_missing_md5_fatal :
    (∀ (platform : Platform) (pkgs : List RepoDataRecord),
        (∃ r ∈ pkgs, r.packageRecord.md5 = none) →
        ∃ msg, build_explicit_spec platform pkgs = .error msg) ∧
    (∀ (outputDir envName : String) (env : Environment) (platform : Platform)
        (flag : Bool) (pkgs : List Package) (c : CondaPackage),
        env.packages platform = some pkgs →
        Package.conda c ∈ pkgs →
        c.record.packageRecord.md5 = none →
        ∃ msg, render_env_platform outputDir envName env platform flag = .error msg) := by
  constructor
  · intro platform pkgs h
    obtain ⟨n, hn, _⟩ := buildEntries_error_of_missing pkgs h
    exact ⟨_, by unfold build_explicit_spec; rw [hn]; rfl⟩
  · intro outputDir envName env platform flag pkgs c hp hcmem hmd5
    unfold render_env_platform
    simp only [hp]
    cases hc : collectCondaPackages flag pkgs with
    | error e => exact ⟨e, by unfold render_packages; simp only [hc]⟩
    | ok pr =>
      obtain ⟨cs, ws⟩ := pr
      have hcs : cs = condaOnly pkgs := collectCondaPackages_ok_fst pkgs flag cs ws hc
      have hrecmem : c.record ∈ sort_topologically (cs.map CondaPackage.record) := by
        apply (sort_topologically_perm _).mem_iff.mpr
        rw [hcs]
        exact List.mem_map_of_mem _ (mem_condaOnly c pkgs hcmem)
      cases hbuild : buildEntries (sort_topologically (cs.map CondaPackage.record)) with
      | ok es =>
        have := buildEntries_ok_md5 _ es hbuild c.record hrecmem
        rw [hmd5] at this
        simp at this
      | error e2 =>
        exact ⟨e2, by
          unfold render_packages
          simp only [hc, mapM_tryIntoRepoData, build_explicit_spec, hbuild, Except.map]⟩

/-- Claim C4 witness: the theorem applied to the concrete environment holding
one conda package without an md5 digest, with the override flag set. -/
theorem c4_witness :
    ∃ msg, render_env_platform "out" "default" envNoMd5 "linux-64" true = .error msg :=
  c4_missing_md5_fatal.2 "out" "default" envNoMd5 "linux-64" true
    [Package.conda ⟨recNoMd5⟩] ⟨recNoMd5⟩ (by decide) (by decide) rfl

/-- Claim C7: every entry build_explicit_spec emits for a package with
checksum h has the package's URL with the fragment set to exactly the
lowercase hexadecimal encoding of h; the base of the URL is unmodified and
every character of the fragment is a lowercase hex digit. -/
theorem c7_url_fragment (platform : Platform) (pkgs : List RepoDataRecord)
    (spec : ExplicitEnvironmentSpec)
    (h : build_explicit_spec platform pkgs = .ok spec) :
    spec.platform = some platform ∧
    spec.packages.length = pkgs.length ∧
    ∀ (i : Nat) (hi : i < pkgs.length) (hi2 : i < spec.packages.length),
      ∃ hsh, (pkgs.get ⟨i, hi⟩).packageRecord.md5 = some hsh ∧
        (spec.packages.get ⟨i, hi2⟩).url
          = (pkgs.get ⟨i, hi⟩).url.setFragment (some (md5ToHex hsh)) ∧
        ((spec.packages.get ⟨i, hi2⟩).url).base = ((pkgs.get ⟨i, hi⟩).url).base ∧
        ∀ c ∈ (md5ToHex hsh).data, c ∈ ("0123456789abcdef".data) := by
  cases hb : buildEntries pkgs with
  | error e =>
    unfold build_explicit_spec at h
    rw [hb] at h
    simp [Except.map] at h
  | ok es =>
    unfold build_explicit_spec at h
    rw [hb] at h
    simp only [Except.map, Except.ok.injEq] at h
    subst h
    obtain ⟨hlen, hget⟩ := buildEntries_ok_get pkgs es hb
    refine ⟨rfl, hlen, ?_⟩
    intro i hi hi2
    obtain ⟨hsh, h1, h2⟩ := hget i hi (by simpa using hi2)
    refine ⟨hsh, h1, ?_, ?_, md5ToHex_lowercase hsh⟩
    · exact h2
    · rw [show (es.get ⟨i, by simpa using hi2⟩) =
          (({ platform := some platform, packages := es }
            : ExplicitEnvironmentSpec).packages.get ⟨i, hi2⟩) from rfl] at h2
      rw [h2]
      rfl

/-- Claim C7 witness: the theorem applied to a concrete one-package list,
discharging the successful-build hypothesis by evaluation. -/
theorem c7_witness :
    ({ platform := some "linux-64",
       packages := [⟨{ base := "https://conda.example/bar-1.0-0.conda",
                       fragment := some (md5ToHex [1, 2]) }⟩] }
      : ExplicitEnvironmentSpec).packages.length = [recBar].length :=
  (c7_url_fragment "linux-64" [recBar]
    { platform := some "linux-64",
      packages := [⟨{ base := "https://conda.example/bar-1.0-0.conda",
                      fragment := some (md5ToHex [1, 2]) }⟩] } (by decide)).2.1

/-- Claim C10: the checksum the exporter requires is specifically the MD5
digest: a package whose md5 field is absent fails the build with the exact
message "Package {name} does not contain an md5 hash" no matter what other
digest it carries, and the sha256 field has no influence at all on the
result of build_explicit_spec. -/
theorem c10_md5_specifically :
    (∀ (platform : Platform) (pkgs : List RepoDataRecord),
        (∃ r ∈ pkgs, r.packageRecord.md5 = none) →
        ∃ n, build_explicit_spec platform pkgs
            = .error ("Package " ++ n ++ " does not contain an md5 hash") ∧
          ∃ r ∈ pkgs, r.packageRecord.name = n ∧ r.packageRecord.md5 = none) ∧
    (∀ (platform : Platform) (pkgs : List RepoDataRecord)
        (f : RepoDataRecord → Option (List Nat)),
        build_explicit_spec platform (pkgs.map (fun r =>
          { r with packageRecord := { r.packageRecord with sha256 := f r } }))
          = build_explicit_spec platform pkgs) := by
  constructor
  · intro platform pkgs h
    obtain ⟨n, hn, hr⟩ := buildEntries_error_of_missing pkgs h
    exact ⟨n, by unfold build_explicit_spec; rw [hn]; rfl, hr⟩
  · intro platform pkgs f
    unfold build_explicit_spec
    rw [buildEntries_map_sha]

/-- Claim C10 witness: the theorem applied to the concrete package that has a
sha256 digest but no md5 digest. -/
theorem c10_witness :
    ∃ n, build_explicit_spec "linux-64" [recNoMd5]
        = .error ("Package " ++ n ++ " does not contain an md5 hash") ∧
      ∃ r ∈ [recNoMd5], r.packageRecord.name = n ∧ r.packageRecord.md5 = none :=
  c10_md5_specifically.1 "linux-64" [recNoMd5] ⟨recNoMd5, by decide, rfl⟩

/-- Claim C5: with ignore_pypi_errors false, a work-item containing a PyPI
package fails fatally with the message instructing the caller to pass
the override flag (and hence writes no file); with the flag true, rendering
equals rendering of the conda-only subset with one warning per dropped
PyPI package prepended. -/
theorem c5_pypi_policy :
    (∀ (outputDir envName : String) (env : Environment) (platform : Platform)
        (pkgs : List Package) (q : PypiPackageData),
        env.packages platform = some pkgs → Package.pypi q ∈ pkgs →
        render_env_platform outputDir envName env platform false
          = .error pypiNotSupportedMsg) ∧
    (∀ (outputDir envName : String) (platform : Platform) (pkgs : List Package),
        render_packages outputDir envName platform true pkgs
          = (render_packages outputDir envName platform true
              ((condaOnly pkgs).map Package.conda)).map
              (fun r => (pypiWarningsOf pkgs ++ r.1, r.2))) := by
  constructor
  · intro outputDir envName env platform pkgs q hp hmem
    unfold render_env_platform
    simp only [hp]
    unfold render_packages
    simp only [collectCondaPackages_false_error pkgs q hmem]
  · intro outputDir envName platform pkgs
    have h1 := collectCondaPackages_true pkgs
    have h2 := collectCondaPackages_true ((condaOnly pkgs).map Package.conda)
    rw [condaOnly_map_conda, pypiWarningsOf_map_conda] at h2
    unfold render_packages
    simp only [h1, h2, mapM_tryIntoRepoData]
    cases hbuild : build_explicit_spec platform
        (sort_topologically ((condaOnly pkgs).map CondaPackage.record)) with
    | error e => simp [hbuild, Except.map]
    | ok ees => simp [hbuild, Except.map]

/-- Claim C5 witness: the theorem applied to the concrete mixed-ecosystem
environment with the flag off. -/
theorem c5_witness :
    render_env_platform "out" "default" mixedEnv "linux-64" false
      = .error pypiNotSupportedMsg :=
  c5_pypi_policy.1 "out" "default" mixedEnv "linux-64"
    [Package.conda ⟨recBar⟩, Package.pypi ⟨"requests"⟩] ⟨"requests"⟩
    (by decide) (by decide)

theorem selectEnvironments_error_of_missing (lf : LockFile) :
    ∀ (names : List String), (∃ n ∈ names, lf.environment n = none) →
      ∃ m ∈ names, lf.environment m = none ∧
        selectEnvironments lf (some names)
          = .error ("unknown environment " ++ m) := by
  intro names
  induction names with
  | nil => intro h; simp at h
  | cons n0 rest ih =>
    intro h
    cases he : lf.environment n0 with
    | none =>
      refine ⟨n0, List.mem_cons_self _ _, he, ?_⟩
      simp [selectEnvironments, selectLoop, he]
    | some env =>
      obtain ⟨n, hn, hnone⟩ := h
      have hnrest : n ∈ rest := by
        rcases List.mem_cons.mp hn with h1 | h1
        · subst h1; rw [he] at hnone; simp at hnone
        · exact h1
      obtain ⟨m, hm, hmn, herr⟩ := ih ⟨n, hnrest, hnone⟩
      refine ⟨m, List.mem_cons_of_mem _ hm, hmn, ?_⟩
      simp only [selectEnvironments] at herr ⊢
      simp [selectLoop, he, herr, Except.map]

theorem renderAll_ok (outputDir : String) (flag : Bool) :
    ∀ (items : List (String × Environment × Platform)),
      (∀ i ∈ items, ∃ w, render_env_platform outputDir i.1 i.2.1 i.2.2 flag = .ok w) →
      ∃ ws files, renderAll outputDir flag items = .ok (ws, files) ∧
        ∀ i w f, i ∈ items →
          render_env_platform outputDir i.1 i.2.1 i.2.2 flag = .ok (w, some f) →
          f ∈ files := by
  intro items
  induction items with
  | nil =>
    intro _
    exact ⟨[], [], rfl, by intro i w f h; simp at h⟩
  | cons it rest ih =>
    intro h
    obtain ⟨⟨w0, fw0⟩, h0⟩ := h it (List.mem_cons_self _ _)
    obtain ⟨ws2, files2, h2, hmem2⟩ := ih (fun i hi => h i (List.mem_cons_of_mem _ hi))
    refine ⟨w0 ++ ws2, fw0.toList ++ files2, ?_, ?_⟩
    · obtain ⟨n, e, p⟩ := it
      simp only [renderAll]
      rw [h0, h2]
    · intro i w f hi hrender
      rcases List.mem_cons.mp hi with h1 | h1
      · subst h1
        rw [h0] at hrender
        have : w0 = w ∧ fw0 = some f := by
          have := Except.ok.inj hrender
          exact ⟨congrArg Prod.fst this, congrArg Prod.snd this⟩
        apply List.mem_append_left
        rw [this.2]
        simp
      · exact List.mem_append_right _ (hmem2 i w f h1 hrender)

/-- Claim C6: the selector treats its two axes asymmetrically: an explicitly
requested environment name missing from the lock makes execute fail with
the fatal "unknown environment" error (no file written), while a requested
platform missing from one environment's available set only contributes a
skip warning, and every available (environment, platform) combination is
still rendered, its file appearing in the output. -/
theorem c6_env_platform_asymmetry :
    (∀ (lf : LockFile) (args : Args) (names : List String),
        args.environment = some names →
        (∃ n ∈ names, lf.environment n = none) →
        ∃ m ∈ names, lf.environment m = none ∧
          execute lf args = .error ("unknown environment " ++ m)) ∧
    (∀ (lf : LockFile) (outputDir : String) (flag : Bool) (plats : List Platform),
        (∀ envName env p, (envName, env) ∈ lf.environments → p ∈ plats →
          env.platforms.contains p = true →
          ∃ w, render_env_platform outputDir envName env p flag = .ok w) →
        ∃ ws files,
          execute lf
              { outputDir := outputDir, environment := none,
                platform := some plats, ignorePypiErrors := flag }
            = .ok (ws, files) ∧
          (∀ envName env p, (envName, env) ∈ lf.environments → p ∈ plats →
            env.platforms.contains p = false →
            platformSkipWarning p envName ∈ ws) ∧
          (∀ envName env p w f, (envName, env) ∈ lf.environments → p ∈ plats →
            env.platforms.contains p = true →
            render_env_platform outputDir envName env p flag = .ok (w, some f) →
            f ∈ files)) := by
  constructor
  · intro lf args names hargs hmissing
    obtain ⟨m, hm, hmn, herr⟩ := selectEnvironments_error_of_missing lf names hmissing
    refine ⟨m, hm, hmn, ?_⟩
    unfold execute
    rw [hargs, herr]
  · intro lf outputDir flag plats h
    have hready : ∀ i ∈ (List.map Prod.fst
        (lf.environments.map (fun ne => expandEnv ne.1 ne.2 (some plats)))).flatten,
        ∃ w, render_env_platform outputDir i.1 i.2.1 i.2.2 flag = .ok w := by
      intro i hi
      rw [List.map_map] at hi
      simp only [List.mem_flatten, List.mem_map] at hi
      obtain ⟨s, ⟨pair, hne, hpair⟩, his⟩ := hi
      subst hpair
      simp only [Function.comp_apply, expandEnv, List.mem_filterMap] at his
      obtain ⟨p, hp, hif⟩ := his
      by_cases hc : pair.2.platforms.contains p = true
      · rw [if_pos hc] at hif
        have hi2 : i = (pair.1, pair.2, p) := by
          have := Option.some.inj hif
          exact this.symm
        subst hi2
        exact h pair.1 pair.2 p (by simpa using hne) hp hc
      · rw [if_neg hc] at hif
        exact absurd hif (by simp)
    obtain ⟨ws2, files, hra, hfiles⟩ := renderAll_ok outputDir flag _ hready
    refine ⟨(List.map Prod.snd
        (lf.environments.map (fun ne => expandEnv ne.1 ne.2 (some plats)))).flatten ++ ws2,
      files, ?_, ?_, ?_⟩
    · have hexec : execute lf
          { outputDir := outputDir, environment := none,
            platform := some plats, ignorePypiErrors := flag }
          = match renderAll outputDir flag
              (List.map Prod.fst
                (lf.environments.map (fun ne => expandEnv ne.1 ne.2 (some plats)))).flatten with
            | .error e => .error e
            | .ok (ws, fs) => .ok ((List.map Prod.snd
                (lf.environments.map (fun ne => expandEnv ne.1 ne.2 (some plats)))).flatten ++ ws, fs) := rfl
      rw [hexec, hra]
    · intro envName env p hne hp hcontains
      apply List.mem_append_left
      apply List.mem_flatten.mpr
      refine ⟨(expandEnv envName env (some plats)).2, ?_, ?_⟩
      · exact List.mem_map_of_mem Prod.snd (List.mem_map_of_mem _ hne)
      · apply List.mem_filterMap.mpr
        refine ⟨p, hp, ?_⟩
        rw [if_neg ?_]
        intro hcontra
        rw [hcontains] at hcontra
        exact Bool.noConfusion hcontra
    · intro envName env p w f hne hp hcontains hrender
      apply hfiles (envName, env, p) w f ?_ hrender
      apply List.mem_flatten.mpr
      refine ⟨(expandEnv envName env (some plats)).1, ?_, ?_⟩
      · exact List.mem_map_of_mem Prod.fst (List.mem_map_of_mem _ hne)
      · apply List.mem_filterMap.mpr
        exact ⟨p, hp, by rw [if_pos hcontains]⟩

/-- Claim C6 witness: the theorem applied to a concrete lock: requesting the
nonexistent environment "ci" is fatal, while requesting platforms
linux-64 and osx-64 of an environment that only has linux-64 succeeds with
a skip warning for osx-64. -/
theorem c6_witness :
    (∃ m ∈ ["ci"], demoLock.environment m = none ∧
        execute demoLock
            { outputDir := "out", environment := some ["ci"],
              platform := none, ignorePypiErrors := false }
          = .error ("unknown environment " ++ m)) ∧
    (∃ ws files, execute demoLock
          { outputDir := "out", environment := none,
            platform := some ["linux-64", "osx-64"], ignorePypiErrors := false }
        = .ok (ws, files) ∧ platformSkipWarning "osx-64" "default" ∈ ws) := by
  constructor
  · exact c6_env_platform_asymmetry.1 demoLock _ ["ci"] rfl ⟨"ci", by decide, by decide⟩
  · have hhyp : ∀ (envName : String) (env : Environment) (p : Platform),
        (envName, env) ∈ demoLock.environments → p ∈ ["linux-64", "osx-64"] →
        env.platforms.contains p = true →
        ∃ w, render_env_platform "out" envName env p false = .ok w := by
      intro envName env p h1 h2 h3
      simp only [demoLock, List.mem_singleton] at h1
      have h1a : envName = "default" := congrArg Prod.fst h1
      have h1b : env = emptyEnv := congrArg Prod.snd h1
      subst h1a
      subst h1b
      rcases List.mem_cons.mp h2 with h2a | h2a
      · subst h2a
        exact ⟨([], none), by decide⟩
      · rcases List.mem_cons.mp h2a with h2b | h2b
        · subst h2b
          exact absurd h3 (by decide)
        · simp at h2b
    obtain ⟨ws, files, hexec, hskip, _⟩ :=
      c6_env_platform_asymmetry.2 demoLock "out" false ["linux-64", "osx-64"] hhyp
    exact ⟨ws, files, hexec,
      hskip "default" emptyEnv "osx-64" (by decide) (by decide) (by decide)⟩

/-- Claim C3 witness: the theorem applied to the concrete two-package input
foo (depends on bar) and bar, with the rank function discharging the
acyclicity hypothesis and decide discharging distinctness. -/
theorem c3_witness :
    (sort_topologically [recFoo, recBar]).Perm [recFoo, recBar] :=
  (c3_sorted_output [recFoo, recBar] (by decide)
    ⟨fun n => if n = "bar" then 0 else 1, by decide⟩).1
